import Mathlib

/-!
Shallow embedding of `src/tools/signpost_summary.py`, a single-pass tool that
reconstructs begin/end intervals from a stream of trace records and aggregates
duration statistics per interval name.

Modelling conventions:
* Python `str | None` values become `Option String`; Python truthiness of such a
  value (`if s:`) is `otruthy` (present and non-empty).
* Python `dict` becomes an association list with at most one live entry per key
  (insert overwrites in place, `pop` removes the first entry), matching dict
  semantics including insertion order.
* Python unbounded `int` becomes `ℤ`; the float arithmetic of `_pct` is modelled
  over `ℚ` (the claims evaluated are exactly representable); the `float("nan")`
  sentinel for an empty sample list is modelled as `none`.
* The XML traversal (`xml.etree.ElementTree.iterparse`) is the external
  event-producing collaborator of the spec: it is abstracted as a list of nodes
  in document order, each node carrying its tag, the attributes the program
  reads (`fmt`, `ref`, `id`), its text, and (for `row` nodes) its children.
* List indexing `values_sorted[lo]` is modelled totally with `List.getD`; the
  in-bounds guarantee for `p ∈ [0,1]` is established as a theorem.
-/

namespace SignpostSummary

/-- Python truthiness of an optional string: keep it only when present and
non-empty (`if s:` on a `str | None`). -/
def otruthy : Option String → Option String
  | some s => if s = "" then none else some s
  | none => none

/-- Python `a or b` on optional strings: `a` when truthy, else `b` unchanged
(which may itself be `None` or empty). -/
def pyOr (a b : Option String) : Option String :=
  match otruthy a with
  | some s => some s
  | none => b

/-- Python `s.strip()`: drop leading and trailing whitespace (the inputs the
program strips are ASCII; structural recursion so that concrete streams
evaluate inside the kernel). -/
def pyStrip (s : String) : String :=
  ⟨((s.toList.dropWhile Char.isWhitespace).reverse.dropWhile Char.isWhitespace).reverse⟩

/-- Python `s.lower()`: ASCII lowercasing, as applied to the resolved
event-kind labels. -/
def pyLower (s : String) : String :=
  ⟨s.toList.map Char.toLower⟩

/-- Python `int(t)` on an already-stripped string: optional sign followed by
decimal digits; anything else raises `ValueError`, modelled as `none`. -/
def parseIntPy (s : String) : Option ℤ :=
  let chars := s.toList
  let signed : ℤ × List Char :=
    match chars with
    | '-' :: rest => (-1, rest)
    | '+' :: rest => (1, rest)
    | _ => (1, chars)
  if signed.2 = [] then none
  else if signed.2.all (fun c => c.isDigit) then
    some (signed.1 * (signed.2.foldl (fun acc d => acc * 10 + (d.toNat - '0'.toNat)) 0 : ℕ))
  else none

/-- A symbol table `id → fmt` (a Python `dict[str, str]`). -/
abbrev Table := List (String × String)

/-- Python `d.get(k)`: the value of the first (unique) entry for `k`. -/
def alookup {K V : Type} [DecidableEq K] : List (K × V) → K → Option V
  | [], _ => none
  | (k', v) :: rest, k => if k' = k then some v else alookup rest k

/-- Python `d[k] = v`: overwrite in place if present, else append. -/
def aset {K V : Type} [DecidableEq K] : List (K × V) → K → V → List (K × V)
  | [], k, v => [(k, v)]
  | (k', v') :: rest, k, v =>
    if k' = k then (k, v) :: rest else (k', v') :: aset rest k v

/-- The removal part of Python `d.pop(k, None)`: drop the entry for `k`
(a dict holds at most one entry per key, so dropping every occurrence
coincides with dropping the one entry). -/
def aremove {K V : Type} [DecidableEq K] : List (K × V) → K → List (K × V)
  | [], _ => []
  | (k', v') :: rest, k =>
    if k' = k then aremove rest k else (k', v') :: aremove rest k

/-- An XML element as the program reads it: its tag, the three attributes it
ever accesses, and its text. -/
structure Elem where
  tag : String
  fmt : Option String
  ref : Option String
  idAttr : Option String
  text : Option String
  deriving DecidableEq, Repr

/-- Embedding of `_resolve_fmt(elem, by_id)` (lines 25-35): inline `fmt`
attribute if truthy; else, if the `ref` attribute is truthy, the table lookup
(absent when not found, with no further fallback); else the stripped text when
non-empty. The Python `elem is None` guard corresponds to callers that never
pass a missing element here. -/
def _resolve_fmt (e : Elem) (by_id : Table) : Option String :=
  match otruthy e.fmt with
  | some f => some f
  | none =>
    match otruthy e.ref with
    | some r => alookup by_id r
    | none =>
      let t := pyStrip (e.text.getD "")
      if t = "" then none else some t

/-- Embedding of `_resolve_id(elem)` (lines 38-41):
`elem.attrib.get("ref") or elem.attrib.get("id")`. -/
def _resolve_id (e : Elem) : Option String :=
  pyOr e.ref e.idAttr

/-- The sorted copy `sorted(values)` used by `_pct` (Python `sorted` is a
stable ascending sort; on integers any ascending stable sort agrees with it). -/
def sortedVals (values : List ℤ) : List ℤ :=
  values.insertionSort (fun a b => a ≤ b)

/-- The interpolation index `idx = p * (n - 1)` of `_pct`. -/
def pctIdx (n : ℕ) (p : ℚ) : ℚ := p * ((n : ℚ) - 1)

/-- `lo = int(math.floor(idx))` of `_pct`. -/
def pctLo (n : ℕ) (p : ℚ) : ℤ := ⌊pctIdx n p⌋

/-- `hi = int(math.ceil(idx))` of `_pct`. -/
def pctHi (n : ℕ) (p : ℚ) : ℤ := ⌈pctIdx n p⌉

/-- Embedding of `_pct(values, p)` (lines 10-22) over `ℚ`; the `float("nan")`
returned for an empty list is modelled as `none`. -/
def _pct (values : List ℤ) (p : ℚ) : Option ℚ :=
  if values = [] then none
  else
    let vs := sortedVals values
    if vs.length = 1 then some ((vs.getD 0 0 : ℤ) : ℚ)
    else
      let lo := pctLo vs.length p
      let hi := pctHi vs.length p
      if lo = hi then some ((vs.getD lo.toNat 0 : ℤ) : ℚ)
      else
        let frac : ℚ := pctIdx vs.length p - (lo : ℚ)
        some (((vs.getD lo.toNat 0 : ℤ) : ℚ) * (1 - frac)
          + ((vs.getD hi.toNat 0 : ℤ) : ℚ) * frac)

/-- The in-row extraction state built by the `for child in list(elem)` loop
(lines 117-163): one field per local variable of that loop. -/
structure RowFields where
  time_ns : Option ℤ
  time_fmt : Option String
  event_kind : Option String
  name : Option String
  subsystem : Option String
  category : Option String
  thread_id : Option String
  signpost_id : Option String
  deriving DecidableEq, Repr

/-- All-absent initial values of the row locals (lines 117-124). -/
def initFields : RowFields :=
  ⟨none, none, none, none, none, none, none, none⟩

/-- The whole mutable state of `main`'s streaming pass: the five symbol tables
(lines 62-66), the open-interval map keyed by `(thread_id, signpost_id)`
(line 69), the per-name duration lists (line 71) and the two counters
(lines 72-73). -/
structure LoopState where
  event_type_fmt : Table
  signpost_name_fmt : Table
  subsystem_fmt : Table
  category_fmt : Table
  thread_fmt : Table
  open_intervals : List ((Option String × Option String) × (ℤ × Option String × Option String))
  durations_by_name : List (Option String × List ℤ)
  unmatched_ends : ℕ
  matched : ℕ
  deriving DecidableEq, Repr

/-- The state before the first stream node. -/
def initState : LoopState :=
  ⟨[], [], [], [], [], [], [], 0, 0⟩

/-- Python `defaultdict(list)` append `d[k].append(v)`: extend the existing
entry in place, or create a fresh singleton entry. -/
def dappend {K : Type} [DecidableEq K] :
    List (K × List ℤ) → K → ℤ → List (K × List ℤ)
  | [], k, v => [(k, [v])]
  | (k', vs) :: rest, k, v =>
    if k' = k then (k', vs ++ [v]) :: rest else (k', vs) :: dappend rest k v

/-- One iteration of the child loop (lines 126-163): dispatch on the child tag
and update the row locals. Uses the current symbol tables of the pass. -/
def stepChild (st : LoopState) (f : RowFields) (c : Elem) : RowFields :=
  if c.tag = "event-time" ∨ c.tag = "sample-time" then
    let t := pyStrip (c.text.getD "")
    let f' := if t ≠ "" then { f with time_ns := parseIntPy t } else f
    { f' with time_fmt := pyOr c.fmt f'.time_fmt }
  else if c.tag = "event-type" then
    match otruthy (_resolve_fmt c st.event_type_fmt) with
    | some v => { f with event_kind := some v }
    | none => f
  else if c.tag = "signpost-name" then
    match otruthy (_resolve_fmt c st.signpost_name_fmt) with
    | some v => { f with name := some v }
    | none => f
  else if c.tag = "subsystem" then
    match otruthy (_resolve_fmt c st.subsystem_fmt) with
    | some v => { f with subsystem := some v }
    | none => f
  else if c.tag = "category" then
    match otruthy (_resolve_fmt c st.category_fmt) with
    | some v => { f with category := some v }
    | none => f
  else if c.tag = "thread" then
    { f with thread_id := pyOr (_resolve_id c) f.thread_id }
  else if c.tag = "os-signpost-identifier" then
    { f with signpost_id := pyOr c.fmt (pyOr (some (pyStrip (c.text.getD ""))) c.ref) }
  else f

/-- Extraction of the row locals from a row's children in document order. -/
def extractFields (st : LoopState) (children : List Elem) : RowFields :=
  children.foldl (stepChild st) initFields

/-- The required-fields check of line 170:
`time_ns is not None and event_kind and name and thread_id and signpost_id`. -/
def requiredPresent (f : RowFields) : Bool :=
  f.time_ns.isSome && (otruthy f.event_kind).isSome && (otruthy f.name).isSome
    && (otruthy f.thread_id).isSome && (otruthy f.signpost_id).isSome

/-- Python `"begin" in ek` substring test. -/
def strContains (hay needle : String) : Bool :=
  decide (List.IsInfix needle.toList hay.toList)

/-- The correlator step (lines 183-201), acting on an accepted record's fields:
a pure begin overwrites the open entry for its key; a pure end pops the entry,
counting an unmatched end when absent, and otherwise records `dt = end - start`
under the begin's name when `dt >= 0`. -/
def correlate (st : LoopState) (time_ns : ℤ) (name : Option String)
    (time_fmt : Option String) (is_begin is_end : Bool)
    (key : Option String × Option String) : LoopState :=
  if is_begin && !is_end then
    { st with open_intervals := aset st.open_intervals key (time_ns, name, time_fmt) }
  else if is_end && !is_begin then
    match alookup st.open_intervals key with
    | none => { st with unmatched_ends := st.unmatched_ends + 1 }
    | some (start_ns, start_name, _) =>
      let st' := { st with open_intervals := aremove st.open_intervals key }
      let name_to_use := if start_name ≠ name then start_name else name
      let dt := time_ns - start_ns
      if 0 ≤ dt then
        { st' with durations_by_name := dappend st'.durations_by_name name_to_use dt,
                   matched := st'.matched + 1 }
      else st'
  else st

/-- Processing of one `row` element (lines 116-204): extract the row locals,
apply the subsystem/category filter (line 166), the required-fields filter
(line 170), classify the kind by case-insensitive substring (lines 174-181),
and hand begin/end candidates to the correlator. -/
def processRow (sub cat : String) (st : LoopState) (children : List Elem) : LoopState :=
  let f := extractFields st children
  if ¬ (f.subsystem = some sub ∧ f.category = some cat) then st
  else if requiredPresent f = false then st
  else
    let ek := pyLower (f.event_kind.getD "")
    let is_begin := strContains ek "begin"
    let is_end := strContains ek "end"
    if is_begin = false ∧ is_end = false then st
    else
      correlate st (f.time_ns.getD 0) f.name f.time_fmt is_begin is_end
        (f.thread_id, f.signpost_id)

/-- The symbol-table registration arms of the element dispatch (lines 86-110):
a definition element with truthy `id` and `fmt` attributes registers its label,
last write winning. -/
def registerDefn (st : LoopState) (e : Elem) : LoopState :=
  if e.tag = "event-type" then
    match otruthy e.idAttr, otruthy e.fmt with
    | some i, some f => { st with event_type_fmt := aset st.event_type_fmt i f }
    | _, _ => st
  else if e.tag = "signpost-name" then
    match otruthy e.idAttr, otruthy e.fmt with
    | some i, some f => { st with signpost_name_fmt := aset st.signpost_name_fmt i f }
    | _, _ => st
  else if e.tag = "subsystem" then
    match otruthy e.idAttr, otruthy e.fmt with
    | some i, some f => { st with subsystem_fmt := aset st.subsystem_fmt i f }
    | _, _ => st
  else if e.tag = "category" then
    match otruthy e.idAttr, otruthy e.fmt with
    | some i, some f => { st with category_fmt := aset st.category_fmt i f }
    | _, _ => st
  else if e.tag = "thread" then
    match otruthy e.idAttr, otruthy e.fmt with
    | some i, some f => { st with thread_fmt := aset st.thread_fmt i f }
    | _, _ => st
  else st

/-- One node of the abstracted document-order stream: the element itself plus,
for `row` nodes, its children. -/
structure Node where
  elem : Elem
  children : List Elem
  deriving DecidableEq, Repr

/-- Processing of one stream node (lines 82-204): registration arms first, then
row handling; every other element is skipped. -/
def stepNode (sub cat : String) (st : LoopState) (nd : Node) : LoopState :=
  let st' := registerDefn st nd.elem
  if nd.elem.tag = "row" then processRow sub cat st' nd.children else st'

/-- The whole streaming pass of `main` over a stream of nodes in document
order, for a configured subsystem/category pair. -/
def runLoop (sub cat : String) (nodes : List Node) : LoopState :=
  nodes.foldl (stepNode sub cat) initState

/-! ### Association-list lemmas (Python dict semantics) -/

theorem alookup_aset {K V : Type} [DecidableEq K] (l : List (K × V)) (k k' : K) (v : V) :
    alookup (aset l k v) k' = if k = k' then some v else alookup l k' := by
  induction l with
  | nil => by_cases h : k = k' <;> simp [aset, alookup, h]
  | cons p rest ih =>
    obtain ⟨pk, pv⟩ := p
    by_cases hpk : pk = k
    · subst hpk
      by_cases h : pk = k'
      · subst h; simp [aset, alookup]
      · simp [aset, alookup, h]
    · by_cases hk : k = k'
      · subst hk
        simp [aset, alookup, hpk, ih]
      · by_cases hp : pk = k'
        · subst hp
          simp [aset, alookup, hpk, hk]
        · simp [aset, alookup, hpk, hk, hp, ih]

theorem alookup_aremove {K V : Type} [DecidableEq K] (l : List (K × V)) (k k' : K) :
    alookup (aremove l k) k' = if k = k' then none else alookup l k' := by
  induction l with
  | nil => simp [aremove, alookup]
  | cons p rest ih =>
    obtain ⟨pk, pv⟩ := p
    by_cases hpk : pk = k
    · subst hpk
      by_cases h : pk = k'
      · subst h; simp [aremove, alookup, ih]
      · simp [aremove, alookup, h, ih]
    · by_cases hk : k = k'
      · subst hk
        simp [aremove, alookup, hpk, ih]
      · by_cases hp : pk = k'
        · subst hp
          simp [aremove, alookup, hpk, hk]
        · simp [aremove, alookup, hpk, hk, hp, ih]

theorem alookup_dappend {K : Type} [DecidableEq K]
    (d : List (K × List ℤ)) (k k' : K) (v : ℤ) :
    alookup (dappend d k v) k'
      = if k = k' then some ((alookup d k).getD [] ++ [v]) else alookup d k' := by
  induction d with
  | nil => by_cases h : k = k' <;> simp [dappend, alookup, h]
  | cons p rest ih =>
    obtain ⟨pk, pv⟩ := p
    by_cases hpk : pk = k
    · subst hpk
      by_cases h : pk = k'
      · subst h; simp [dappend, alookup]
      · simp [dappend, alookup, h]
    · by_cases hk : k = k'
      · subst hk
        simp [dappend, alookup, hpk, ih]
      · by_cases hp : pk = k'
        · subst hp
          simp [dappend, alookup, hpk, hk]
        · simp [dappend, alookup, hpk, hk, hp, ih]

/-! ### C1: inline field resolver precedence -/

/-- C1 (counterexample): the claim says a node whose reference id misses the
table but whose raw text is non-empty resolves to that raw text; on the code,
a node with no `fmt`, `ref = "r"` absent from the table, and text `"hello"`
resolves to absent, not to `"hello"`. -/
theorem C1_counterexample :
    _resolve_fmt ⟨"signpost-name", none, some "r", none, some "hello"⟩ [] = none
    ∧ pyStrip "hello" = "hello" ∧ ("hello" : String) ≠ "" := by
  decide

/-- C1 (amended): the resolver returns the inline label when it is present and
non-empty; otherwise, when a non-empty reference id is carried, it returns the
table lookup and never consults the raw text (absent when the id is not in the
table); the trimmed raw text is used only when both the inline label and the
reference id are absent or empty, with empty trimmed text yielding absent. -/
theorem C1_resolve_precedence (e : Elem) (t : Table) :
    (∀ f, otruthy e.fmt = some f → _resolve_fmt e t = some f)
    ∧ (otruthy e.fmt = none → ∀ r, otruthy e.ref = some r →
        _resolve_fmt e t = alookup t r)
    ∧ (otruthy e.fmt = none → otruthy e.ref = none →
        _resolve_fmt e t
          = (if pyStrip (e.text.getD "") = "" then none else some (pyStrip (e.text.getD "")))) := by
  refine ⟨?_, ?_, ?_⟩
  · intro f hf; simp [_resolve_fmt, hf]
  · intro hf r hr; simp [_resolve_fmt, hf, hr]
  · intro hf hr; simp [_resolve_fmt, hf, hr]

/-- Witness for C1: the amended precedence, applied at a node carrying only a
reference id that misses a non-empty table, yields absent. -/
theorem C1_resolve_precedence_witness :
    _resolve_fmt ⟨"signpost-name", none, some "r", none, some "hello"⟩ [("q", "QQ")] = none := by
  have h := (C1_resolve_precedence
    ⟨"signpost-name", none, some "r", none, some "hello"⟩ [("q", "QQ")]).2.1
  rw [h (by decide) "r" (by decide)]
  decide

/-! ### C8, C10: percentile estimator -/

theorem sortedVals_four : sortedVals [10, 20, 30, 40] = [10, 20, 30, 40] := by decide

theorem pctIdx_four_half : pctIdx 4 (1/2) = 3/2 := by rw [pctIdx]; norm_num

theorem pctLo_four_half : pctLo 4 (1/2) = 1 := by
  rw [pctLo, pctIdx_four_half]; norm_num

theorem pctHi_four_half : pctHi 4 (1/2) = 2 := by
  rw [pctHi, pctIdx_four_half, Int.ceil_eq_iff]; norm_num

theorem pctIdx_four_zero : pctIdx 4 0 = 0 := by rw [pctIdx]; norm_num

theorem pctLo_four_zero : pctLo 4 0 = 0 := by
  rw [pctLo, pctIdx_four_zero]; norm_num

theorem pctHi_four_zero : pctHi 4 0 = 0 := by
  rw [pctHi, pctIdx_four_zero]; norm_num

theorem pctIdx_four_one : pctIdx 4 1 = 3 := by rw [pctIdx]; norm_num

theorem pctLo_four_one : pctLo 4 1 = 3 := by
  rw [pctLo, pctIdx_four_one]; norm_num

theorem pctHi_four_one : pctHi 4 1 = 3 := by
  rw [pctHi, pctIdx_four_one, Int.ceil_eq_iff]; norm_num

theorem pct_four_half : _pct [10, 20, 30, 40] (1/2) = some 25 := by
  have hne : ¬ ([10, 20, 30, 40] : List ℤ) = [] := by decide
  simp only [_pct, sortedVals_four]
  rw [if_neg hne]
  norm_num [pctLo_four_half, pctHi_four_half, pctIdx_four_half,
    show Int.toNat 1 = 1 from rfl, show Int.toNat 2 = 2 from rfl]

theorem pct_four_zero : _pct [10, 20, 30, 40] 0 = some 10 := by
  have hne : ¬ ([10, 20, 30, 40] : List ℤ) = [] := by decide
  simp only [_pct, sortedVals_four]
  rw [if_neg hne]
  norm_num [pctLo_four_zero, pctHi_four_zero, pctIdx_four_zero,
    show Int.toNat 0 = 0 from rfl]

theorem pct_four_one : _pct [10, 20, 30, 40] 1 = some 40 := by
  have hne : ¬ ([10, 20, 30, 40] : List ℤ) = [] := by decide
  simp only [_pct, sortedVals_four]
  rw [if_neg hne]
  norm_num [pctLo_four_one, pctHi_four_one, pctIdx_four_one,
    show Int.toNat 3 = 3 from rfl]

/-- C8: the percentile estimator sorts the samples ascending, returns the
single sample when there is exactly one, returns the sorted entry at `lo` when
`lo = hi` for `idx = p * (n - 1)`, and otherwise interpolates
`samples[lo] * (1 - frac) + samples[hi] * frac` with `frac = idx - lo`; on
`[10, 20, 30, 40]` it yields `25` at `p = 1/2`, `10` at `p = 0` and `40` at
`p = 1`. -/
theorem C8_pct_spec (values : List ℤ) (p : ℚ) :
    (∀ v : ℤ, values = [v] → _pct values p = some (v : ℚ))
    ∧ (2 ≤ values.length →
        pctLo (sortedVals values).length p = pctHi (sortedVals values).length p →
        _pct values p
          = some (((sortedVals values).getD (pctLo (sortedVals values).length p).toNat 0 : ℤ) : ℚ))
    ∧ (2 ≤ values.length →
        pctLo (sortedVals values).length p ≠ pctHi (sortedVals values).length p →
        _pct values p
          = some ((((sortedVals values).getD (pctLo (sortedVals values).length p).toNat 0 : ℤ) : ℚ)
                * (1 - (pctIdx (sortedVals values).length p - (pctLo (sortedVals values).length p : ℚ)))
              + (((sortedVals values).getD (pctHi (sortedVals values).length p).toNat 0 : ℤ) : ℚ)
                * (pctIdx (sortedVals values).length p - (pctLo (sortedVals values).length p : ℚ))))
    ∧ _pct [10, 20, 30, 40] (1/2) = some 25
    ∧ _pct [10, 20, 30, 40] 0 = some 10
    ∧ _pct [10, 20, 30, 40] 1 = some 40 := by
  have hlen : (sortedVals values).length = values.length := by
    simp only [sortedVals]
    exact List.length_insertionSort _ _
  refine ⟨?_, ?_, ?_, pct_four_half, pct_four_zero, pct_four_one⟩
  · intro v hv
    subst hv
    rfl
  · intro h2 heq
    have hne : ¬ values = [] := by
      intro h; subst h; simp at h2
    have h1 : ¬ (sortedVals values).length = 1 := by omega
    simp only [_pct]
    rw [if_neg hne, if_neg h1, if_pos heq]
  · intro h2 heq
    have hne : ¬ values = [] := by
      intro h; subst h; simp at h2
    have h1 : ¬ (sortedVals values).length = 1 := by omega
    simp only [_pct]
    rw [if_neg hne, if_neg h1, if_neg heq]

/-- Witness for C8: the characterization applied to `[10, 20, 30, 40]` at
`p = 1/2`, where `lo = 1 ≠ 2 = hi` selects the interpolation branch. -/
theorem C8_pct_spec_witness :
    _pct [10, 20, 30, 40] (1/2)
      = some ((((sortedVals [10, 20, 30, 40]).getD
            (pctLo (sortedVals [10, 20, 30, 40]).length (1/2)).toNat 0 : ℤ) : ℚ)
          * (1 - (pctIdx (sortedVals [10, 20, 30, 40]).length (1/2)
              - (pctLo (sortedVals [10, 20, 30, 40]).length (1/2) : ℚ)))
        + (((sortedVals [10, 20, 30, 40]).getD
            (pctHi (sortedVals [10, 20, 30, 40]).length (1/2)).toNat 0 : ℤ) : ℚ)
          * (pctIdx (sortedVals [10, 20, 30, 40]).length (1/2)
              - (pctLo (sortedVals [10, 20, 30, 40]).length (1/2) : ℚ))) := by
  apply (C8_pct_spec [10, 20, 30, 40] (1/2)).2.2.1
  · norm_num
  · rw [sortedVals_four]
    norm_num [pctLo_four_half, pctHi_four_half]

/-- C10: for a sample list of length `n ≥ 2` and `p ∈ [0, 1]`, the indices
`lo = ⌊p * (n-1)⌋` and `hi = ⌈p * (n-1)⌉` both lie in `[0, n-1]`, so the two
list accesses are in bounds; this does not extend to `p > 1`, where `hi`
exceeds the last index. -/
theorem C10_pct_index_bounds (n : ℕ) (p : ℚ) :
    (2 ≤ n → 0 ≤ p → p ≤ 1 →
      0 ≤ pctLo n p ∧ pctLo n p ≤ pctHi n p ∧ pctHi n p ≤ (n : ℤ) - 1
        ∧ (pctLo n p).toNat < n ∧ (pctHi n p).toNat < n)
    ∧ (2 ≤ n → 1 < p → ((n : ℤ) - 1) < pctHi n p) := by
  constructor
  · intro hn h0 h1
    have hn2 : (2 : ℚ) ≤ (n : ℚ) := by exact_mod_cast hn
    have hn1 : (0 : ℚ) ≤ (n : ℚ) - 1 := by linarith
    have hidx0 : 0 ≤ pctIdx n p := mul_nonneg h0 hn1
    have hidx1 : pctIdx n p ≤ (n : ℚ) - 1 := by
      have := mul_le_mul_of_nonneg_right h1 hn1
      simpa [pctIdx] using this
    have hlo0 : 0 ≤ pctLo n p := Int.floor_nonneg.mpr hidx0
    have hlohi : pctLo n p ≤ pctHi n p := Int.floor_le_ceil _
    have hhile : pctHi n p ≤ (n : ℤ) - 1 := by
      rw [pctHi]
      apply Int.ceil_le.mpr
      push_cast
      exact hidx1
    refine ⟨hlo0, hlohi, hhile, ?_, ?_⟩ <;> omega
  · intro hn hp
    have hn2 : (2 : ℚ) ≤ (n : ℚ) := by exact_mod_cast hn
    have h1 : (1 : ℚ) ≤ (n : ℚ) - 1 := by linarith
    rw [pctHi]
    apply Int.lt_ceil.mpr
    push_cast
    rw [pctIdx]
    nlinarith

/-- Witness for C10: the bounds at `n = 4`, `p = 1/2`, and the overflow of the
upper index at `p = 2`. -/
theorem C10_pct_index_bounds_witness :
    (0 ≤ pctLo 4 (1/2) ∧ pctLo 4 (1/2) ≤ pctHi 4 (1/2) ∧ pctHi 4 (1/2) ≤ (4 : ℤ) - 1
      ∧ (pctLo 4 (1/2)).toNat < 4 ∧ (pctHi 4 (1/2)).toNat < 4)
    ∧ ((4 : ℤ) - 1) < pctHi 4 2 := by
  constructor
  · exact (C10_pct_index_bounds 4 (1/2)).1 (by norm_num) (by norm_num) (by norm_num)
  · exact (C10_pct_index_bounds 4 2).2 (by norm_num) (by norm_num)

/-! ### Correlator step lemmas -/

theorem correlate_begin (st : LoopState) (t : ℤ) (nm tf : Option String)
    (key : Option String × Option String) :
    correlate st t nm tf true false key
      = { st with open_intervals := aset st.open_intervals key (t, nm, tf) } := by
  simp [correlate]

theorem correlate_end_absent (st : LoopState) (t : ℤ) (nm tf : Option String)
    (key : Option String × Option String)
    (h : alookup st.open_intervals key = none) :
    correlate st t nm tf false true key
      = { st with unmatched_ends := st.unmatched_ends + 1 } := by
  simp [correlate, h]

theorem correlate_end_open (st : LoopState) (t : ℤ) (nm tf : Option String)
    (key : Option String × Option String) (s : ℤ) (sn sf : Option String)
    (h : alookup st.open_intervals key = some (s, sn, sf)) :
    correlate st t nm tf false true key
      = if 0 ≤ t - s then
          { st with open_intervals := aremove st.open_intervals key,
                    durations_by_name := dappend st.durations_by_name sn (t - s),
                    matched := st.matched + 1 }
        else
          { st with open_intervals := aremove st.open_intervals key } := by
  rcases eq_or_ne sn nm with hn | hn
  · subst hn
    by_cases hdt : 0 ≤ t - s <;> simp [correlate, h, hdt]
  · by_cases hdt : 0 ≤ t - s <;> simp [correlate, h, hn, hdt]

theorem correlate_same_kind (st : LoopState) (t : ℤ) (nm tf : Option String)
    (key : Option String × Option String) (b : Bool) :
    correlate st t nm tf b b key = st := by
  cases b <;> simp [correlate]

/-! ### C3: attribution to the begin name -/

/-- C3: when an end record closes an open interval and the sample is recorded,
the sample is appended under the begin record's stored interval name, even when
the end record carries a different name; the end record's name is never used
for attribution. -/
theorem C3_attribution (st : LoopState) (t s : ℤ) (nm sn tf sf : Option String)
    (key : Option String × Option String)
    (hopen : alookup st.open_intervals key = some (s, sn, sf))
    (hdt : 0 ≤ t - s) :
    (correlate st t nm tf false true key).durations_by_name
        = dappend st.durations_by_name sn (t - s)
    ∧ (correlate st t nm tf false true key).matched = st.matched + 1 := by
  rw [correlate_end_open st t nm tf key s sn sf hopen, if_pos hdt]
  exact ⟨rfl, rfl⟩

/-- Witness for C3: one open interval stored under name "Fetch"; the closing
end carries "FetchDone", yet the sample lands under "Fetch". -/
theorem C3_attribution_witness :
    (correlate
        { initState with
            open_intervals := [((some "t1", some "0xE"), (1000, some "Fetch", none))] }
        1500 (some "FetchDone") none false true (some "t1", some "0xE")).durations_by_name
      = dappend [] (some "Fetch") 500
    ∧ (correlate
        { initState with
            open_intervals := [((some "t1", some "0xE"), (1000, some "Fetch", none))] }
        1500 (some "FetchDone") none false true (some "t1", some "0xE")).matched = 1 := by
  have h := C3_attribution
    { initState with
        open_intervals := [((some "t1", some "0xE"), (1000, some "Fetch", none))] }
    1500 1000 (some "FetchDone") (some "Fetch") none none
    (some "t1", some "0xE") (by decide) (by decide)
  exact ⟨h.1, h.2⟩

/-! ### C4: nonnegative samples; negative differences dropped -/

/-- C4: every sample the correlator appends is nonnegative (any duration in the
new state is either an old one or is `≥ 0`); and when an end matches an open
interval with negative `end - start`, the sample is dropped: the durations,
the matched counter and the unmatched-ends counter are all unchanged, while the
open entry for the key is still removed. -/
theorem C4_nonneg_and_drop (st : LoopState) (t : ℤ) (nm tf : Option String)
    (b e : Bool) (key : Option String × Option String) :
    (∀ name d, d ∈ ((alookup (correlate st t nm tf b e key).durations_by_name name).getD [])
        → d ∈ ((alookup st.durations_by_name name).getD []) ∨ 0 ≤ d)
    ∧ (∀ s sn sf, alookup st.open_intervals key = some (s, sn, sf) → t - s < 0 →
        (correlate st t nm tf false true key).durations_by_name = st.durations_by_name
        ∧ (correlate st t nm tf false true key).matched = st.matched
        ∧ (correlate st t nm tf false true key).unmatched_ends = st.unmatched_ends
        ∧ alookup (correlate st t nm tf false true key).open_intervals key = none) := by
  constructor
  · intro name d hd
    cases b <;> cases e
    · rw [correlate_same_kind] at hd
      exact Or.inl hd
    · rcases hlk : alookup st.open_intervals key with _ | ⟨s, sn, sf⟩
      · rw [correlate_end_absent st t nm tf key hlk] at hd
        exact Or.inl hd
      · rw [correlate_end_open st t nm tf key s sn sf hlk] at hd
        by_cases hdt : 0 ≤ t - s
        · rw [if_pos hdt] at hd
          simp only [alookup_dappend] at hd
          by_cases hk : sn = name
          · rw [if_pos hk] at hd
            simp only [Option.getD_some, List.mem_append, List.mem_singleton] at hd
            rcases hd with hd | hd
            · subst hk; exact Or.inl hd
            · subst hd; exact Or.inr hdt
          · rw [if_neg hk] at hd
            exact Or.inl hd
        · rw [if_neg hdt] at hd
          exact Or.inl hd
    · rw [correlate_begin] at hd
      exact Or.inl hd
    · rw [correlate_same_kind] at hd
      exact Or.inl hd
  · intro s sn sf hopen hneg
    have hnle : ¬ (0 ≤ t - s) := not_le.mpr hneg
    rw [correlate_end_open st t nm tf key s sn sf hopen, if_neg hnle]
    refine ⟨rfl, rfl, rfl, ?_⟩
    simp [alookup_aremove]

/-- Witness for C4: an open interval started at 2000 closed by an end at 1000
(`dt = -1000`): nothing is recorded, no counter moves, the entry is removed. -/
theorem C4_nonneg_and_drop_witness :
    (correlate
        { initState with
            open_intervals := [((some "t1", some "0xF"), (2000, some "Load", none))] }
        1000 (some "Load") none false true (some "t1", some "0xF")).durations_by_name = []
    ∧ (correlate
        { initState with
            open_intervals := [((some "t1", some "0xF"), (2000, some "Load", none))] }
        1000 (some "Load") none false true (some "t1", some "0xF")).matched = 0
    ∧ (correlate
        { initState with
            open_intervals := [((some "t1", some "0xF"), (2000, some "Load", none))] }
        1000 (some "Load") none false true (some "t1", some "0xF")).unmatched_ends = 0
    ∧ alookup (correlate
        { initState with
            open_intervals := [((some "t1", some "0xF"), (2000, some "Load", none))] }
        1000 (some "Load") none false true (some "t1", some "0xF")).open_intervals
        (some "t1", some "0xF") = none := by
  have h := (C4_nonneg_and_drop
    { initState with
        open_intervals := [((some "t1", some "0xF"), (2000, some "Load", none))] }
    1000 (some "Load") none false true (some "t1", some "0xF")).2
    2000 (some "Load") none (by decide) (by decide)
  exact ⟨h.1, h.2.1, h.2.2.1, h.2.2.2⟩

/-! ### C5: overwrite on double begin -/

/-- C5: a second begin for an already-open key unconditionally replaces the
stored start time and name with its own, producing no sample and moving no
counter; a subsequent matching end then uses the second begin's start time and
name. -/
theorem C5_overwrite_double_begin (st : LoopState) (t1 t2 te : ℤ)
    (n1 n2 ne tf1 tf2 tfe : Option String) (key : Option String × Option String) :
    alookup (correlate (correlate st t1 n1 tf1 true false key)
        t2 n2 tf2 true false key).open_intervals key = some (t2, n2, tf2)
    ∧ (correlate (correlate st t1 n1 tf1 true false key)
        t2 n2 tf2 true false key).durations_by_name = st.durations_by_name
    ∧ (correlate (correlate st t1 n1 tf1 true false key)
        t2 n2 tf2 true false key).matched = st.matched
    ∧ (correlate (correlate st t1 n1 tf1 true false key)
        t2 n2 tf2 true false key).unmatched_ends = st.unmatched_ends
    ∧ (0 ≤ te - t2 →
        (correlate (correlate (correlate st t1 n1 tf1 true false key)
            t2 n2 tf2 true false key) te ne tfe false true key).durations_by_name
          = dappend st.durations_by_name n2 (te - t2)
        ∧ (correlate (correlate (correlate st t1 n1 tf1 true false key)
            t2 n2 tf2 true false key) te ne tfe false true key).matched
          = st.matched + 1) := by
  rw [correlate_begin, correlate_begin]
  have hlk : alookup (aset (aset st.open_intervals key (t1, n1, tf1)) key (t2, n2, tf2)) key
      = some (t2, n2, tf2) := by
    simp [alookup_aset]
  refine ⟨hlk, rfl, rfl, rfl, ?_⟩
  intro hdt
  have h := C3_attribution
    { st with open_intervals := aset (aset st.open_intervals key (t1, n1, tf1)) key (t2, n2, tf2) }
    te t2 ne n2 tfe tf2 key hlk hdt
  exact h

/-- Witness for C5: spec scenario 4 — two begins on key `("t1", "0xD")` at
times 100 and 200 (names "Load", "Load2"), then an end at 300: the open entry
holds the second begin's values and the single sample of 100 lands under
"Load2". -/
theorem C5_overwrite_double_begin_witness :
    alookup (correlate
        (correlate initState 100 (some "Load") none true false (some "t1", some "0xD"))
        200 (some "Load2") none true false (some "t1", some "0xD")).open_intervals
        (some "t1", some "0xD") = some (200, some "Load2", none)
    ∧ (correlate (correlate
        (correlate initState 100 (some "Load") none true false (some "t1", some "0xD"))
        200 (some "Load2") none true false (some "t1", some "0xD"))
        300 (some "Load2") none false true (some "t1", some "0xD")).durations_by_name
      = dappend [] (some "Load2") 100 := by
  have h := C5_overwrite_double_begin initState 100 200 300
    (some "Load") (some "Load2") (some "Load2") none none none (some "t1", some "0xD")
  refine ⟨h.1, ?_⟩
  have h2 := (h.2.2.2.2 (by decide)).1
  exact h2.trans (by decide)

/-! ### C7: unmatched end -/

/-- The single-row stream of spec scenario 2: an end record with no prior
begin, matching the default subsystem/category filter. -/
def endOnlyRow : Node :=
  ⟨⟨"row", none, none, none, none⟩,
   [⟨"event-time", none, none, none, some "1000"⟩,
    ⟨"event-type", some "os_signpost_event_end", none, none, none⟩,
    ⟨"signpost-name", some "Load", none, none, none⟩,
    ⟨"subsystem", some "engine-sim", none, none, none⟩,
    ⟨"category", some "perf", none, none, none⟩,
    ⟨"thread", none, some "t1", none, none⟩,
    ⟨"os-signpost-identifier", some "0xB", none, none, none⟩]⟩

/-- C7: an end candidate whose key has no open interval increments the
unmatched-ends counter by exactly one and changes nothing else — the resulting
state is the old state with `unmatched_ends + 1`; on a stream holding only such
an end record, the pass finishes with `unmatched_ends = 1` and `matched = 0`. -/
theorem C7_unmatched_end (st : LoopState) (t : ℤ) (nm tf : Option String)
    (key : Option String × Option String)
    (habs : alookup st.open_intervals key = none) :
    correlate st t nm tf false true key
        = { st with unmatched_ends := st.unmatched_ends + 1 }
    ∧ (runLoop "engine-sim" "perf" [endOnlyRow]).unmatched_ends = 1
    ∧ (runLoop "engine-sim" "perf" [endOnlyRow]).matched = 0 := by
  refine ⟨correlate_end_absent st t nm tf key habs, ?_, ?_⟩ <;> decide

/-- Witness for C7: the unmatched-end step applied at the empty initial
state. -/
theorem C7_unmatched_end_witness :
    correlate initState 1000 (some "Load") none false true (some "t1", some "0xB")
      = { initState with unmatched_ends := 1 } :=
  (C7_unmatched_end initState 1000 (some "Load") none (some "t1", some "0xB")
    (by decide)).1

/-! ### C2: timestamp extraction -/

theorem stepChild_temporal_nonempty (st : LoopState) (f : RowFields) (c : Elem)
    (htag : c.tag = "event-time" ∨ c.tag = "sample-time")
    (htext : pyStrip (c.text.getD "") ≠ "") :
    (stepChild st f c).time_ns = parseIntPy (pyStrip (c.text.getD "")) := by
  rcases htag with h | h <;> simp [stepChild, h, htext]

theorem stepChild_time_ns_other (st : LoopState) (f : RowFields) (c : Elem)
    (h : ¬ ((c.tag = "event-time" ∨ c.tag = "sample-time")
        ∧ pyStrip (c.text.getD "") ≠ "")) :
    (stepChild st f c).time_ns = f.time_ns := by
  by_cases htag : c.tag = "event-time" ∨ c.tag = "sample-time"
  · have htext : ¬ pyStrip (c.text.getD "") ≠ "" := fun hx => h ⟨htag, hx⟩
    rcases htag with h1 | h1 <;> simp [stepChild, h1, htext]
  · simp only [stepChild, if_neg htag]
    repeat' split
    all_goals rfl

theorem foldl_time_ns_unchanged (st : LoopState) (ds : List Elem) (g : RowFields)
    (hds : ∀ d ∈ ds, ¬ ((d.tag = "event-time" ∨ d.tag = "sample-time")
        ∧ pyStrip (d.text.getD "") ≠ "")) :
    (ds.foldl (stepChild st) g).time_ns = g.time_ns := by
  induction ds generalizing g with
  | nil => rfl
  | cons d ds ih =>
    rw [List.foldl_cons]
    rw [ih _ (fun x hx => hds x (List.mem_cons_of_mem _ hx))]
    exact stepChild_time_ns_other st g d (hds d (List.mem_cons_self _ _))

/-- C2 (counterexample): the claim says that when both accepted temporal
sub-fields are present with parseable non-empty values, the first in document
order wins; with `event-time = 100` followed by `sample-time = 200` the code
extracts 200, not 100. -/
theorem C2_counterexample :
    (extractFields initState
        [⟨"event-time", none, none, none, some "100"⟩,
         ⟨"sample-time", none, none, none, some "200"⟩]).time_ns = some 200
    ∧ (some (200 : ℤ) ≠ some (100 : ℤ)) := by decide

/-- C2 (amended): each temporal sub-field with non-empty text overwrites the
timestamp, so the LAST such sub-field in document order determines it: the
timestamp is that field's parse result — and absent, rather than an error,
when its text fails integer parsing. -/
theorem C2_last_temporal_wins (st : LoopState) (cs ds : List Elem) (c : Elem)
    (htag : c.tag = "event-time" ∨ c.tag = "sample-time")
    (htext : pyStrip (c.text.getD "") ≠ "")
    (hds : ∀ d ∈ ds, ¬ ((d.tag = "event-time" ∨ d.tag = "sample-time")
        ∧ pyStrip (d.text.getD "") ≠ "")) :
    (extractFields st (cs ++ c :: ds)).time_ns = parseIntPy (pyStrip (c.text.getD "")) := by
  simp only [extractFields]
  rw [List.foldl_append, List.foldl_cons]
  rw [foldl_time_ns_unchanged st ds _ hds]
  exact stepChild_temporal_nonempty st _ c htag htext

/-- Witness for C2: with `event-time = 100` before `sample-time = 200`, the
last temporal sub-field wins and the timestamp is 200. -/
theorem C2_last_temporal_wins_witness :
    (extractFields initState
        [⟨"event-time", none, none, none, some "100"⟩,
         ⟨"sample-time", none, none, none, some "200"⟩]).time_ns = some 200 := by
  have h := C2_last_temporal_wins initState
    [⟨"event-time", none, none, none, some "100"⟩] []
    ⟨"sample-time", none, none, none, some "200"⟩
    (by decide) (by decide) (by intro d hd; cases hd)
  exact h.trans (by decide)

/-! ### C6: filter and kind classification -/

/-- C6: a record reaches the correlator only when its resolved subsystem and
category exactly equal the configured pair and all five required fields are
present; accepted records are classified by case-insensitive substring test on
the kind, and a kind containing both "begin" and "end", or neither, drops the
record with no state change; a pure begin or pure end reaches the correlator
with the extracted fields. -/
theorem C6_filter_classification (st : LoopState) (children : List Elem) (sub cat : String) :
    (¬ ((extractFields st children).subsystem = some sub
        ∧ (extractFields st children).category = some cat)
      → processRow sub cat st children = st)
    ∧ (requiredPresent (extractFields st children) = false
      → processRow sub cat st children = st)
    ∧ (strContains (pyLower ((extractFields st children).event_kind.getD "")) "begin"
        = strContains (pyLower ((extractFields st children).event_kind.getD "")) "end"
      → processRow sub cat st children = st)
    ∧ (∀ t : ℤ, (extractFields st children).time_ns = some t →
        ((extractFields st children).subsystem = some sub
          ∧ (extractFields st children).category = some cat) →
        requiredPresent (extractFields st children) = true →
        strContains (pyLower ((extractFields st children).event_kind.getD "")) "begin" = true →
        strContains (pyLower ((extractFields st children).event_kind.getD "")) "end" = false →
        processRow sub cat st children
          = correlate st t (extractFields st children).name
              (extractFields st children).time_fmt true false
              ((extractFields st children).thread_id, (extractFields st children).signpost_id))
    ∧ (∀ t : ℤ, (extractFields st children).time_ns = some t →
        ((extractFields st children).subsystem = some sub
          ∧ (extractFields st children).category = some cat) →
        requiredPresent (extractFields st children) = true →
        strContains (pyLower ((extractFields st children).event_kind.getD "")) "begin" = false →
        strContains (pyLower ((extractFields st children).event_kind.getD "")) "end" = true →
        processRow sub cat st children
          = correlate st t (extractFields st children).name
              (extractFields st children).time_fmt false true
              ((extractFields st children).thread_id, (extractFields st children).signpost_id)) := by
  refine ⟨?_, ?_, ?_, ?_, ?_⟩
  · intro h
    simp only [processRow]
    rw [if_pos h]
  · intro h
    simp only [processRow]
    by_cases h1 : ¬ ((extractFields st children).subsystem = some sub
        ∧ (extractFields st children).category = some cat)
    · rw [if_pos h1]
    · rw [if_neg h1, if_pos h]
  · intro heq
    simp only [processRow]
    by_cases h1 : ¬ ((extractFields st children).subsystem = some sub
        ∧ (extractFields st children).category = some cat)
    · rw [if_pos h1]
    · rw [if_neg h1]
      by_cases h2 : requiredPresent (extractFields st children) = false
      · rw [if_pos h2]
      · rw [if_neg h2]
        rcases hb : strContains (pyLower ((extractFields st children).event_kind.getD ""))
            "begin" with _ | _
        · rw [if_pos ⟨rfl, heq ▸ hb⟩]
        · have he : strContains (pyLower ((extractFields st children).event_kind.getD ""))
              "end" = true := heq ▸ hb
          rw [if_neg (by simp), he]
          exact correlate_same_kind st _ _ _ _ true
  · intro t ht hfil hreq hb he
    simp only [processRow]
    rw [if_neg (by simpa using hfil), if_neg (by simp [hreq]),
      if_neg (by simp [hb]), hb, he, ht]
    rfl
  · intro t ht hfil hreq hb he
    simp only [processRow]
    rw [if_neg (by simpa using hfil), if_neg (by simp [hreq]),
      if_neg (by simp [he]), hb, he, ht]
    rfl

/-- Witness for C6: the end-only row is accepted by the default filter and is
handed to the correlator as a pure end candidate with its extracted fields. -/
theorem C6_filter_classification_witness :
    processRow "engine-sim" "perf" initState endOnlyRow.children
      = correlate initState 1000 (some "Load") none false true (some "t1", some "0xB") := by
  have h := (C6_filter_classification initState endOnlyRow.children "engine-sim" "perf").2.2.2.2
    1000 (by decide) (by decide) (by decide) (by decide) (by decide)
  exact h.trans (by decide)

/-! ### C9: matched counter equals total recorded samples -/

/-- The total number of recorded Duration Samples across all interval names. -/
def durTotal (d : List (Option String × List ℤ)) : ℕ :=
  (d.map (fun p => p.2.length)).sum

theorem durTotal_dappend (d : List (Option String × List ℤ)) (k : Option String) (v : ℤ) :
    durTotal (dappend d k v) = durTotal d + 1 := by
  induction d with
  | nil => simp [dappend, durTotal]
  | cons p rest ih =>
    obtain ⟨pk, pv⟩ := p
    by_cases h : pk = k
    · subst h
      simp [dappend, durTotal]
      omega
    · simp only [dappend, if_neg h, durTotal, List.map_cons, List.sum_cons] at ih ⊢
      omega

theorem dappend_entries_nonempty (d : List (Option String × List ℤ))
    (k : Option String) (v : ℤ) (hd : ∀ p ∈ d, p.2 ≠ []) :
    ∀ p ∈ dappend d k v, p.2 ≠ [] := by
  induction d with
  | nil =>
    intro p hp
    simp [dappend] at hp
    subst hp
    simp
  | cons q rest ih =>
    obtain ⟨qk, qv⟩ := q
    intro p hp
    by_cases h : qk = k
    · subst h
      simp only [dappend, if_pos rfl] at hp
      rcases List.mem_cons.mp hp with hp | hp
      · subst hp; simp
      · exact hd p (List.mem_cons_of_mem _ hp)
    · simp only [dappend, if_neg h] at hp
      rcases List.mem_cons.mp hp with hp | hp
      · subst hp
        exact hd (qk, qv) (List.mem_cons_self _ _)
      · exact ih (fun q hq => hd q (List.mem_cons_of_mem _ hq)) p hp

/-- The pass invariant behind C9: the matched counter equals the total number
of recorded samples, and every per-name sample list is non-empty. -/
def StateInv (st : LoopState) : Prop :=
  st.matched = durTotal st.durations_by_name
    ∧ ∀ p ∈ st.durations_by_name, p.2 ≠ []

theorem StateInv_correlate (st : LoopState) (t : ℤ) (nm tf : Option String)
    (b e : Bool) (key : Option String × Option String)
    (h : StateInv st) : StateInv (correlate st t nm tf b e key) := by
  cases b <;> cases e
  · rw [correlate_same_kind]; exact h
  · rcases hlk : alookup st.open_intervals key with _ | ⟨s, sn, sf⟩
    · rw [correlate_end_absent st t nm tf key hlk]
      exact ⟨h.1, h.2⟩
    · rw [correlate_end_open st t nm tf key s sn sf hlk]
      by_cases hdt : 0 ≤ t - s
      · rw [if_pos hdt]
        refine ⟨?_, ?_⟩
        · show st.matched + 1 = durTotal (dappend st.durations_by_name sn (t - s))
          rw [durTotal_dappend, h.1]
        · exact dappend_entries_nonempty _ _ _ h.2
      · rw [if_neg hdt]
        exact ⟨h.1, h.2⟩
  · rw [correlate_begin]
    exact ⟨h.1, h.2⟩
  · rw [correlate_same_kind]; exact h

theorem StateInv_processRow (sub cat : String) (st : LoopState) (children : List Elem)
    (h : StateInv st) : StateInv (processRow sub cat st children) := by
  simp only [processRow]
  split
  · exact h
  · split
    · exact h
    · split
      · exact h
      · exact StateInv_correlate _ _ _ _ _ _ _ h

theorem StateInv_registerDefn (st : LoopState) (e : Elem)
    (h : StateInv st) : StateInv (registerDefn st e) := by
  simp only [registerDefn]
  repeat' split
  all_goals exact ⟨h.1, h.2⟩

theorem StateInv_stepNode (sub cat : String) (st : LoopState) (nd : Node)
    (h : StateInv st) : StateInv (stepNode sub cat st nd) := by
  simp only [stepNode]
  split
  · exact StateInv_processRow _ _ _ _ (StateInv_registerDefn _ _ h)
  · exact StateInv_registerDefn _ _ h

theorem StateInv_foldl (sub cat : String) (nodes : List Node) (st : LoopState)
    (h : StateInv st) : StateInv (nodes.foldl (stepNode sub cat) st) := by
  induction nodes generalizing st with
  | nil => exact h
  | cons nd nodes ih => exact ih _ (StateInv_stepNode _ _ _ _ h)

/-- C9: after any prefix of the stream — hence at every point during the pass
and at stream end — the matched counter equals the total number of Duration
Samples across all interval names, and every per-name sample list is
non-empty, so each reported per-name count is positive and the per-name counts
sum to the reported `matched_intervals` value. -/
theorem C9_matched_counts (sub cat : String) (nodes : List Node) :
    (runLoop sub cat nodes).matched
        = durTotal (runLoop sub cat nodes).durations_by_name
    ∧ ∀ p ∈ (runLoop sub cat nodes).durations_by_name, 0 < p.2.length := by
  have h : StateInv (runLoop sub cat nodes) :=
    StateInv_foldl sub cat nodes initState ⟨rfl, by intro p hp; cases hp⟩
  exact ⟨h.1, fun p hp => List.length_pos.mpr (h.2 p hp)⟩

/-- The begin row of spec scenario 1 (name "Load", key `("t1", "0xA")`,
time 1000). -/
def beginRowA : Node :=
  ⟨⟨"row", none, none, none, none⟩,
   [⟨"event-time", none, none, none, some "1000"⟩,
    ⟨"event-type", some "os_signpost_event_begin", none, none, none⟩,
    ⟨"signpost-name", some "Load", none, none, none⟩,
    ⟨"subsystem", some "engine-sim", none, none, none⟩,
    ⟨"category", some "perf", none, none, none⟩,
    ⟨"thread", none, some "t1", none, none⟩,
    ⟨"os-signpost-identifier", some "0xA", none, none, none⟩]⟩

/-- The matching end row of spec scenario 1 (time 5000). -/
def endRowA : Node :=
  ⟨⟨"row", none, none, none, none⟩,
   [⟨"event-time", none, none, none, some "5000"⟩,
    ⟨"event-type", some "os_signpost_event_end", none, none, none⟩,
    ⟨"signpost-name", some "Load", none, none, none⟩,
    ⟨"subsystem", some "engine-sim", none, none, none⟩,
    ⟨"category", some "perf", none, none, none⟩,
    ⟨"thread", none, some "t1", none, none⟩,
    ⟨"os-signpost-identifier", some "0xA", none, none, none⟩]⟩

/-- Witness for C9: on the begin/end stream of spec scenario 1 the invariant
gives `matched = durTotal`, and both evaluate to 1. -/
theorem C9_matched_counts_witness :
    (runLoop "engine-sim" "perf" [beginRowA, endRowA]).matched
        = durTotal (runLoop "engine-sim" "perf" [beginRowA, endRowA]).durations_by_name
    ∧ (runLoop "engine-sim" "perf" [beginRowA, endRowA]).matched = 1 :=
  ⟨(C9_matched_counts "engine-sim" "perf" [beginRowA, endRowA]).1, by decide⟩

end SignpostSummary
